import Mathlib

set_option linter.unusedVariables false

/-!
# Verification of the convoAI crawl-and-normalize pipeline

Shallow embedding of `src/server/utils.py`: the same-domain breadth-first
crawler (`scrape_entire_website`), the attachment store (`save_extensions`),
the page reporter (`generate_page_report`), the attachment conversion stage
(`convert_attachments_to_pdf`) and the top-level entry point (`scrap_website`).

External library calls of the Python code (httpx fetching, BeautifulSoup
HTML parsing, `urllib.parse.urljoin` resolution, LibreOffice conversion) are
modelled as oracles: a `Web` function supplies, per URL, the fetch outcome
together with the already-parsed document data (title string, meta
description, paragraph texts, resolved anchor URLs), and a `Converter`
function supplies the exit status of an external converter invocation.
The filesystem is modelled as an association list from path to content;
`os.getcwd()` prefixes are modelled as a relative root. Logging calls are
not modelled (they alter no crawl state).
-/

namespace ConvoAI

/-! ## Decimal representation of counters (`f"{base}_{counter}{ext}"`)

The collision loop of `save_extensions` embeds a decimal counter in file
names; to know the loop terminates we prove `Nat.repr` injective. -/

/-- The digit list produced by repeated division by 10, most significant
digit first: a structural model of `Nat.toDigitsCore`. -/
def decimalDigits (n : Nat) : List Char :=
  if h : n < 10 then [Nat.digitChar (n % 10)]
  else decimalDigits (n / 10) ++ [Nat.digitChar (n % 10)]
termination_by n
decreasing_by
  exact Nat.div_lt_self (by omega) (by omega)

/-- Decode a digit character back to its value. -/
def decDigitVal (c : Char) : Nat := c.toNat - 48

/-- Decode a most-significant-first decimal digit list. -/
def decodeDecimal (cs : List Char) : Nat :=
  cs.foldl (fun a c => a * 10 + decDigitVal c) 0

theorem decDigitVal_digitChar {d : Nat} (h : d < 10) :
    decDigitVal (Nat.digitChar d) = d := by
  interval_cases d <;> rfl

theorem decodeDecimal_append (cs : List Char) (c : Char) :
    decodeDecimal (cs ++ [c]) = decodeDecimal cs * 10 + decDigitVal c := by
  simp [decodeDecimal, List.foldl_append]

theorem decodeDecimal_decimalDigits (n : Nat) :
    decodeDecimal (decimalDigits n) = n := by
  induction n using Nat.strong_induction_on with
  | _ n ih =>
    rw [decimalDigits]
    by_cases h : n < 10
    · simp only [h, dif_pos]
      have h1 : decDigitVal (Nat.digitChar (n % 10)) = n % 10 :=
        decDigitVal_digitChar (Nat.mod_lt n (by omega))
      show 0 * 10 + decDigitVal (Nat.digitChar (n % 10)) = n
      rw [h1]
      omega
    · simp only [h, dif_neg, not_false_iff]
      rw [decodeDecimal_append, ih (n / 10) (Nat.div_lt_self (by omega) (by omega)),
        decDigitVal_digitChar (Nat.mod_lt n (by omega))]
      omega

theorem decimalDigits_injective : Function.Injective decimalDigits := by
  intro a b h
  have := decodeDecimal_decimalDigits a
  rw [h, decodeDecimal_decimalDigits b] at this
  exact this.symm

theorem toDigitsCore_eq_decimalDigits :
    ∀ (fuel n : Nat) (l : List Char), n < fuel →
      Nat.toDigitsCore 10 fuel n l = decimalDigits n ++ l := by
  intro fuel
  induction fuel with
  | zero => intro n l h; omega
  | succ f ih =>
    intro n l h
    rw [Nat.toDigitsCore]
    by_cases h10 : n / 10 = 0
    · have hn : n < 10 := by omega
      simp only [h10, if_pos]
      rw [decimalDigits]
      simp [hn]
    · have hn : ¬ n < 10 := by
        intro hc; exact h10 (Nat.div_eq_of_lt hc)
      simp only [h10, if_neg, not_false_iff]
      rw [ih (n / 10) _ (by omega)]
      conv_rhs => rw [decimalDigits]
      simp [hn]

theorem repr_eq_decimalDigits (n : Nat) :
    Nat.repr n = String.mk (decimalDigits n) := by
  show (Nat.toDigits 10 n).asString = String.mk (decimalDigits n)
  rw [Nat.toDigits, toDigitsCore_eq_decimalDigits (n + 1) n [] (by omega)]
  simp [List.asString]

theorem natRepr_injective : Function.Injective Nat.repr := by
  intro a b h
  rw [repr_eq_decimalDigits, repr_eq_decimalDigits] at h
  exact decimalDigits_injective (by injection h)

/-! ## String primitives

The built-in `String` functions (`splitOn`, `toLower`, `takeWhile`, …) are
implemented over byte positions by well-founded recursion, which the kernel
cannot evaluate; the Python string operations the source uses are therefore
re-implemented structurally over `String.data`. -/

/-- Python `str.split(sep)` for a one-character separator (the source only
splits on `"."` and `"/"`): no collapsing of adjacent separators, and the
empty string splits to `[""]`. -/
def splitChar (sep : Char) : List Char → List (List Char)
  | [] => [[]]
  | c :: cs =>
    if c = sep then [] :: splitChar sep cs
    else
      match splitChar sep cs with
      | [] => [[c]]
      | h :: t => (c :: h) :: t

def pySplit (s : String) (sep : Char) : List String :=
  (splitChar sep s.data).map String.mk

/-- Python `s.split(sep)[-1]` (the split list is never empty). -/
def lastSegD (s : String) (sep : Char) : String :=
  (pySplit s sep).getLastD ""

def isPrefixList : List Char → List Char → Bool
  | [], _ => true
  | _ :: _, [] => false
  | p :: ps, c :: cs => p = c && isPrefixList ps cs

/-- Python `s.startswith(pre)`. -/
def strStartsWith (s pre : String) : Bool :=
  isPrefixList pre.data s.data

/-- Python `s.endswith(suf)`. -/
def strEndsWith (s suf : String) : Bool :=
  isPrefixList suf.data.reverse s.data.reverse

def containsAux (pat : List Char) : List Char → Bool
  | [] => isPrefixList pat []
  | c :: cs => isPrefixList pat (c :: cs) || containsAux pat cs

/-- Python `pat in s` (naive substring search). -/
def strContains (s pat : String) : Bool :=
  containsAux pat.data s.data

/-- Python `str.lower()` (ASCII range, which covers the extensions and
content types the source compares). -/
def pyLower (s : String) : String :=
  String.mk (s.data.map Char.toLower)

def isPySpace (c : Char) : Bool :=
  c = ' ' || c = '\t' || c = '\n' || c = '\r' || c = '\x0b' || c = '\x0c'

/-- Python `str.strip()`. -/
def pyStrip (s : String) : String :=
  String.mk (((s.data.dropWhile isPySpace).reverse.dropWhile isPySpace).reverse)

/-! ## URL helpers (`urllib.parse.urlparse` / `urlsplit`)

Only the pieces the source consults: `netloc` and (for the claim-side
path classifier) the path component.  As in CPython, the scheme is the
part before the first `:` when it is a nonempty run of scheme characters
starting with a letter; the netloc is present only after a literal `//`
and extends to the first `/`, `?` or `#`. -/

def isSchemeChar (c : Char) : Bool :=
  c.isAlpha || c.isDigit || c = '+' || c = '-' || c = '.'

def isNetlocChar (c : Char) : Bool :=
  !(c = '/' || c = '?' || c = '#')

/-- The URL with its `scheme:` prefix removed (the whole URL when no valid
scheme is present). -/
def afterScheme (url : String) : String :=
  if (url.data.takeWhile (fun c => c ≠ ':')).length < url.data.length ∧
      url.data.takeWhile (fun c => c ≠ ':') ≠ [] ∧
      ((url.data.takeWhile (fun c => c ≠ ':')).headD ' ').isAlpha = true ∧
      (url.data.takeWhile (fun c => c ≠ ':')).all isSchemeChar = true then
    String.mk (url.data.drop ((url.data.takeWhile (fun c => c ≠ ':')).length + 1))
  else url

/-- `urlparse(url).netloc` / `urlsplit(url).netloc`. -/
def netlocOf (url : String) : String :=
  if strStartsWith (afterScheme url) "//" then
    String.mk (((afterScheme url).data.drop 2).takeWhile isNetlocChar)
  else ""

/-- `urlparse(url).path` (query and fragment stripped). -/
def pathOfUrl (url : String) : String :=
  if strStartsWith (afterScheme url) "//" then
    String.mk (((((afterScheme url).data.drop 2).dropWhile isNetlocChar).takeWhile
      (fun c => c ≠ '#')).takeWhile (fun c => c ≠ '?'))
  else
    String.mk ((((afterScheme url).data.takeWhile (fun c => c ≠ '#')).takeWhile
      (fun c => c ≠ '?')))

/-- `os.path.splitext` on a bare file name: split at the last dot unless
every character before it is itself a dot (leading dots are part of the
root, as in CPython's `genericpath._splitext`). -/
def splitext (p : String) : String × String :=
  match p.toList.reverse.findIdx? (fun c => c = '.') with
  | none => (p, "")
  | some i =>
    if (p.toList.take (p.toList.length - 1 - i)).any (fun c => c ≠ '.') then
      (String.mk (p.toList.take (p.toList.length - 1 - i)),
       String.mk (p.toList.drop (p.toList.length - 1 - i)))
    else (p, "")

/-- `validate_website` from the source: scheme prefix plus a dot somewhere.
(This helper exists in the repository but is never called on the crawl
path.) -/
def validate_website (website : String) : Bool :=
  (strStartsWith website "http://" || strStartsWith website "https://") &&
    website.data.contains '.'

/-! ## Data model: filesystem, module-level caches, fetched documents -/

/-- The filesystem as an association list from path to file content, plus the
module-level caches of `utils.py` (`attachment_files`, `markdown_files`) and
an observation trace `pdfOutputs` recording the output paths produced by the
conversion stage (only the conversion functions ever extend it). -/
structure Store where
  fs : List (String × String)
  attachment_files : List String
  markdown_files : List String
  pdfOutputs : List String
deriving DecidableEq

/-- `os.path.exists` over the modelled filesystem. -/
def pathExists (fs : List (String × String)) (p : String) : Bool :=
  decide (p ∈ fs.map Prod.fst)

/-- `open(path, "wb").write(content)`: truncating write. -/
def fsWrite (fs : List (String × String)) (p content : String) :
    List (String × String) :=
  if pathExists fs p then
    fs.map (fun pr => if pr.1 = p then (p, content) else pr)
  else fs ++ [(p, content)]

/-- `open(path, "a").write(content)`: appending write, creating the file
when absent. -/
def fsAppend (fs : List (String × String)) (p content : String) :
    List (String × String) :=
  if pathExists fs p then
    fs.map (fun pr => if pr.1 = p then (pr.1, pr.2 ++ content) else pr)
  else fs ++ [(p, content)]

/-- The parse of an HTML document, as BeautifulSoup would deliver it:
the `<title>` string (absent when there is no title tag or it has no
string), the `content` attribute of `<meta name="description">`, and the
stripped text of every `<p>` element in document order. -/
structure HtmlDoc where
  titleString : Option String
  metaDescription : Option String
  paragraphs : List String
deriving DecidableEq

/-- A successful HTTP response: the `Content-Type` header (empty string when
missing), the raw body, its HTML parse and the anchor `href`s already
resolved against the page URL (`urljoin` is modelled inside the oracle). -/
structure Response where
  contentType : String
  body : String
  doc : HtmlDoc
  links : List String
deriving DecidableEq

/-- The web as a fetch oracle: `none` models a transport error, a timeout or
a non-2xx status (`response.raise_for_status()` turns the latter into an
`httpx.HTTPError`, caught by the same handler). -/
def Web := String → Option Response

/-! ## Attachment Store (`save_extensions`) -/

/-- `attachment_extensions` from the source. -/
def attachment_extensions : List String :=
  ["pdf", "doc", "docx", "xls", "xlsx", "ppt", "pptx"]

/-- `f"{base_name}_{counter}{ext}"`. -/
def suffixedName (base ext : String) (n : Nat) : String :=
  base ++ "_" ++ Nat.repr n ++ ext

theorem append_middle_cancel {α : Type} {A xs ys E : List α}
    (h : A ++ (xs ++ E) = A ++ (ys ++ E)) : xs = ys :=
  List.append_cancel_right (List.append_cancel_left h)

theorem candidate_injective (dir base ext : String) :
    Function.Injective (fun n : Nat => dir ++ "/" ++ suffixedName base ext (n + 1)) := by
  intro a b h
  simp only [suffixedName] at h
  have h' := congrArg String.data h
  simp only [String.data_append, List.append_assoc] at h'
  have h2 := List.append_cancel_left (List.append_cancel_left
    (List.append_cancel_left (List.append_cancel_left h')))
  have h3 := List.append_cancel_right h2
  have h4 : Nat.repr (a + 1) = Nat.repr (b + 1) := by
    cases ha : Nat.repr (a + 1) with
    | mk da =>
      cases hb : Nat.repr (b + 1) with
      | mk db =>
        rw [ha, hb] at h3
        exact congrArg String.mk (by simpa using h3)
  have := natRepr_injective h4
  omega

/-- The collision loop always escapes: some suffixed name is free.  The
proof is a pigeonhole argument — the candidate names are pairwise distinct
(decimal counters are injective) while the filesystem is finite. -/
theorem exists_free_suffix (fs : List (String × String)) (dir base ext : String) :
    ∃ n : Nat, pathExists fs (dir ++ "/" ++ suffixedName base ext (n + 1)) = false := by
  by_contra hall
  push_neg at hall
  have hmem : ∀ n : Nat, (dir ++ "/" ++ suffixedName base ext (n + 1)) ∈ fs.map Prod.fst := by
    intro n
    have h1 : pathExists fs (dir ++ "/" ++ suffixedName base ext (n + 1)) ≠ false := hall n
    simp only [pathExists, ne_eq, decide_eq_false_iff_not, not_not] at h1
    exact h1
  set paths := fs.map Prod.fst with hpaths
  set g := fun n : Nat => dir ++ "/" ++ suffixedName base ext (n + 1) with hg
  have hsub : (List.range (paths.length + 1)).map g ⊆ paths := by
    intro x hx
    rcases List.mem_map.mp hx with ⟨n, _, rfl⟩
    exact hmem n
  have hnodup : ((List.range (paths.length + 1)).map g).Nodup :=
    (List.nodup_range _).map (candidate_injective dir base ext)
  have hle := (hnodup.subperm hsub).length_le
  simp at hle

/-- The destination path chosen by `save_extensions`: the plain
`dir/file_name` when free, otherwise `dir/{base}_{n}{ext}` for the counter
the `while os.path.exists(...)` loop stops at (the least free suffix,
tried in the order 1, 2, 3, …). -/
def resolveSavePath (fs : List (String × String)) (dir file_name : String) : String :=
  if pathExists fs (dir ++ "/" ++ file_name) then
    dir ++ "/" ++ suffixedName (splitext file_name).1 (splitext file_name).2
      (Nat.find (exists_free_suffix fs dir (splitext file_name).1 (splitext file_name).2) + 1)
  else dir ++ "/" ++ file_name

/-- `save_extensions(url, content, folder, extensions, company_name)`:
`file_extension = url.split(".")[-1].lower()`, `file_name = url.split("/")[-1]`,
destination directory `folder/company_name`, collision-resolved write, and
the final path appended to the `attachment_files` cache. -/
def save_extensions (url content folder : String) (extensions : List String)
    (company_name : String) (st : Store) : Store :=
  if extensions.contains (pyLower (lastSegD url '.')) then
    { st with
      fs := fsWrite st.fs
        (resolveSavePath st.fs (folder ++ "/" ++ company_name) (lastSegD url '/'))
        content,
      attachment_files := st.attachment_files ++
        [resolveSavePath st.fs (folder ++ "/" ++ company_name) (lastSegD url '/')] }
  else st

/-! ## Page Reporter (`generate_page_report`) -/

/-- Title fallback logic: `soup.title.string.strip() if soup.title and
soup.title.string else "No Title Found"` (an empty string is falsy). -/
def reportTitle (doc : HtmlDoc) : String :=
  match doc.titleString with
  | some t => if t = "" then "No Title Found" else pyStrip t
  | none => "No Title Found"

/-- Description fallback logic for the `<meta name="description">` content
attribute. -/
def reportDescription (doc : HtmlDoc) : String :=
  match doc.metaDescription with
  | some d => if d = "" then "No Description Found" else pyStrip d
  | none => "No Description Found"

/-- The fixed Markdown record appended per page. -/
def reportContent (url : String) (doc : HtmlDoc) : String :=
  "# " ++ reportTitle doc ++ "\n\n##### URL: [" ++ url ++ "](" ++ url ++
    ")\n\n**Description**: " ++ reportDescription doc ++
    "\n\n**Body Text**:\n\n" ++ String.intercalate "\n" doc.paragraphs ++
    "\n\n---\n\n"

/-- The domain key: `url_domain.split(".")[-2]` when the host has more than
two dot-separated labels, else `url_domain.split(".")[0]`. -/
def domainKeyOf (url_domain : String) : String :=
  if (pySplit url_domain '.').length > 2 then
    (pySplit url_domain '.').getD ((pySplit url_domain '.').length - 2) ""
  else (pySplit url_domain '.').getD 0 ""

/-- `generate_page_report(url, content, company_name)`.  The company name is
accepted but (as in the source) not used for the report path. -/
def generate_page_report (url : String) (doc : HtmlDoc) (company_name : String)
    (st : Store) : Store :=
  if netlocOf url = "" then st
  else
    { st with
      fs := fsAppend st.fs
        ("temp/markdown/" ++ domainKeyOf (netlocOf url) ++ ".md")
        (reportContent url doc),
      markdown_files :=
        if st.markdown_files.contains
            ("temp/markdown/" ++ domainKeyOf (netlocOf url) ++ ".md") then
          st.markdown_files
        else st.markdown_files ++
          ["temp/markdown/" ++ domainKeyOf (netlocOf url) ++ ".md"] }

/-! ## Content classification (inline in `scrape_entire_website`) -/

inductive Classification
  | attachment
  | htmlPage
  | ignored
deriving DecidableEq

/-- The classification decision of the crawl loop, in source order:
`any(url.lower().endswith(f".{ext}") for ext in attachment_extensions)`
first (note: the *whole URL string*, not the URL path), then
`"text/html" in response.headers.get("Content-Type", "").lower()`. -/
def classify (url contentTypeHeader : String) : Classification :=
  if attachment_extensions.any (fun ext => strEndsWith (pyLower url) ("." ++ ext)) then
    Classification.attachment
  else if strContains (pyLower contentTypeHeader) "text/html" then
    Classification.htmlPage
  else Classification.ignored

/-! ## Crawl Orchestrator (`scrape_entire_website`) -/

/-- A frontier entry: the URL together with its discovery depth.  The depth
is a pure observation annotation (no branch of the crawl ever reads it);
the Python frontier is the list of the `url` fields. -/
structure Entry where
  url : String
  depth : Nat
deriving DecidableEq

structure CrawlState where
  scraped : List String
  frontier : List Entry
  fetched : List Entry
  store : Store
deriving DecidableEq

/-- The folder argument the crawl passes to `save_extensions`
(`os.path.join(os.getcwd(), "temp", "attachments")`, cwd-relative here). -/
def attachments_folder : String := "temp/attachments"

/-- One candidate link of the link-extraction `for` loop: keep it when its
host equals the crawl's base domain and it is in neither the visited set,
the frontier, nor the per-page `new_urls` accumulator. -/
def addNewUrl (base_domain : String) (scraped frontierUrls : List String)
    (acc : List String) (joined_url : String) : List String :=
  if netlocOf joined_url = base_domain ∧ ¬ scraped.contains joined_url ∧
      ¬ frontierUrls.contains joined_url ∧ ¬ acc.contains joined_url
  then acc ++ [joined_url] else acc

/-- The `new_urls` collected from one HTML page, in first-occurrence order
(the Python `set` has no specified iteration order; membership is
order-independent). -/
def extractNewUrls (links : List String) (base_domain : String)
    (scraped frontierUrls : List String) : List String :=
  links.foldl (addNewUrl base_domain scraped frontierUrls) []

/-- The loop body applied to the popped head `e` and remaining frontier
`rest`: skip empty and already-visited URLs, fetch, mark visited, classify,
and either store the attachment, ignore, or report the page and enqueue its
same-domain links at the back of the frontier. -/
def crawlVisit (web : Web) (base_domain company_name : String) (s : CrawlState)
    (e : Entry) (rest : List Entry) : CrawlState :=
  if e.url = "" then { s with frontier := rest }
  else if s.scraped.contains e.url then { s with frontier := rest }
  else
    match web e.url with
    | none => { s with frontier := rest }
    | some response =>
      let s1 : CrawlState :=
        { s with frontier := rest, scraped := s.scraped ++ [e.url],
                 fetched := s.fetched ++ [e] }
      match classify e.url response.contentType with
      | Classification.attachment =>
          { s1 with store := (save_extensions e.url response.body
              attachments_folder attachment_extensions company_name s1.store) }
      | Classification.ignored => s1
      | Classification.htmlPage =>
          let st2 := generate_page_report e.url response.doc company_name s1.store
          let new_urls := extractNewUrls response.links base_domain s1.scraped
            (rest.map Entry.url)
          { s1 with store := st2,
                    frontier := rest ++ new_urls.map (fun u => Entry.mk u (e.depth + 1)) }

/-- One iteration of the `while urls_to_scrape` loop body:
`url = urls_to_scrape.pop(0)` followed by the visit. -/
def crawlStep (web : Web) (base_domain company_name : String) (s : CrawlState) :
    CrawlState :=
  match s.frontier with
  | [] => s
  | e :: rest => crawlVisit web base_domain company_name s e rest

theorem crawlStep_eq_visit (web : Web) (b c : String) (s : CrawlState)
    (e : Entry) (rest : List Entry) (hfr : s.frontier = e :: rest) :
    crawlStep web b c s = crawlVisit web b c s e rest := by
  unfold crawlStep
  rw [hfr]

theorem addNewUrl_netloc (b : String) (scr fr acc : List String) (j : String)
    (hacc : ∀ u ∈ acc, netlocOf u = b) :
    ∀ u ∈ addNewUrl b scr fr acc j, netlocOf u = b := by
  intro u hu
  unfold addNewUrl at hu
  split at hu
  · rename_i hcond
    rcases List.mem_append.mp hu with h | h
    · exact hacc u h
    · rw [List.mem_singleton.mp h]; exact hcond.1
  · exact hacc u hu

theorem extractNewUrls_netloc (links : List String) (b : String)
    (scr fr : List String) : ∀ u ∈ extractNewUrls links b scr fr, netlocOf u = b := by
  have aux : ∀ (ls acc : List String), (∀ u ∈ acc, netlocOf u = b) →
      ∀ u ∈ ls.foldl (addNewUrl b scr fr) acc, netlocOf u = b := by
    intro ls
    induction ls with
    | nil => intro acc hacc u hu; exact hacc u hu
    | cons j tl ih =>
      intro acc hacc u hu
      simp only [List.foldl_cons] at hu
      exact ih _ (addNewUrl_netloc b scr fr acc j hacc) u hu
  exact aux links [] (by intro u hu; simp at hu)

/-- Exhaustive shape analysis of one loop iteration: either the head is
merely popped (empty URL, already visited, or fetch failure), or the page
is fetched and recorded with nothing enqueued (attachment / non-HTML), or
it is fetched and its same-domain links are appended at the tail with
depth one more than the page's. -/
theorem crawlStep_cases (web : Web) (b c : String) (s : CrawlState) (e : Entry)
    (rest : List Entry) (hfr : s.frontier = e :: rest) :
    crawlStep web b c s = { s with frontier := rest } ∨
    (∃ stx : Store, crawlStep web b c s =
      { s with frontier := rest, scraped := s.scraped ++ [e.url],
               fetched := s.fetched ++ [e], store := stx }) ∨
    (∃ (stx : Store) (news : List String), crawlStep web b c s =
      { s with frontier := rest ++ news.map (fun u => Entry.mk u (e.depth + 1)),
               scraped := s.scraped ++ [e.url], fetched := s.fetched ++ [e],
               store := stx } ∧
      ∀ u ∈ news, netlocOf u = b) := by
  rw [crawlStep_eq_visit web b c s e rest hfr]
  unfold crawlVisit
  by_cases h1 : e.url = ""
  · left; rw [if_pos h1]
  · rw [if_neg h1]
    by_cases h2 : s.scraped.contains e.url = true
    · left; rw [if_pos h2]
    · rw [if_neg h2]
      cases hw : web e.url with
      | none => left; simp only [hw]
      | some resp =>
        simp only [hw]
        cases hc : classify e.url resp.contentType with
        | attachment =>
          right; left
          simp only [hc]
          exact ⟨save_extensions e.url resp.body attachments_folder
            attachment_extensions c s.store, rfl⟩
        | ignored =>
          right; left
          simp only [hc]
          exact ⟨s.store, rfl⟩
        | htmlPage =>
          right; right
          simp only [hc]
          refine ⟨generate_page_report e.url resp.doc c s.store,
            extractNewUrls resp.links b (s.scraped ++ [e.url])
              (rest.map Entry.url), rfl, ?_⟩
          exact extractNewUrls_netloc _ b _ _

/-- The whole `while` loop of `scrape_entire_website`: iterate while the
frontier is nonempty and the visited set is below the page budget. -/
def crawlLoop (web : Web) (base_domain company_name : String) (max_pages : Nat)
    (s : CrawlState) : CrawlState :=
  if h : s.frontier ≠ [] ∧ s.scraped.length < max_pages then
    crawlLoop web base_domain company_name max_pages
      (crawlStep web base_domain company_name s)
  else s
termination_by (max_pages - s.scraped.length, s.frontier.length)
decreasing_by
  obtain ⟨hne, hlt⟩ := h
  obtain ⟨e, rest, hfr⟩ : ∃ e rest, s.frontier = e :: rest := by
    cases hx : s.frontier with
    | nil => exact absurd hx hne
    | cons e rest => exact ⟨e, rest, rfl⟩
  rcases crawlStep_cases web base_domain company_name s e rest hfr with
    hcase | ⟨stx, hcase⟩ | ⟨stx, news, hcase, _⟩
  · rw [hcase]
    apply Prod.Lex.right
    simp [hfr]
  · rw [hcase]
    apply Prod.Lex.left
    simp only [List.length_append, List.length_cons, List.length_nil]
    omega
  · rw [hcase]
    apply Prod.Lex.left
    simp only [List.length_append, List.length_cons, List.length_nil]
    omega

/-- The crawl state at loop entry: empty visited set, frontier holding just
the start URL (depth 0). -/
def initCrawl (start_url : String) (st : Store) : CrawlState :=
  { scraped := [], frontier := [⟨start_url, 0⟩], fetched := [], store := st }

/-- `scrape_entire_website(start_url, company_name, max_pages)`.  The three
`ValueError`s of the source become `Except.error`; `max_pages` is an `Int`
so that the `max_pages <= 0` validation is expressible (the
`isinstance(max_pages, int)` half of that check is enforced by typing). -/
def scrape_entire_website (web : Web) (start_url company_name : String)
    (max_pages : Int) (st : Store) : Except String CrawlState :=
  if start_url = "" then Except.error "Start URL cannot be empty"
  else if company_name = "" then Except.error "Company name cannot be empty"
  else if max_pages ≤ 0 then Except.error "Max iterations must be a positive integer"
  else Except.ok (crawlLoop web (netlocOf start_url) company_name max_pages.toNat
    (initCrawl start_url st))

/-- `scrap_website(company_url, company_name)`: runs the crawl with the
default page budget of 1000 and only logs afterwards — it invokes neither
conversion function. -/
def scrap_website (web : Web) (company_url company_name : String) (st : Store) :
    Except String CrawlState :=
  scrape_entire_website web company_url company_name 1000 st

/-- Reachability of crawl states: `Reaches ... s t` holds when the loop,
started at `s`, passes through `t` after zero or more iterations (each
taken only under the loop guard).  "At every point during and after a run"
is quantification over the states reachable from the initial one. -/
inductive Reaches (web : Web) (base_domain company_name : String) (max_pages : Nat) :
    CrawlState → CrawlState → Prop
  | refl (s : CrawlState) : Reaches web base_domain company_name max_pages s s
  | step (s t : CrawlState) (h1 : s.frontier ≠ []) (h2 : s.scraped.length < max_pages)
      (h : Reaches web base_domain company_name max_pages
        (crawlStep web base_domain company_name s) t) :
      Reaches web base_domain company_name max_pages s t

theorem Reaches.invariant {web : Web} {b c : String} {mp : Nat}
    (P : CrawlState → Prop)
    (hstep : ∀ s, s.frontier ≠ [] → s.scraped.length < mp → P s →
      P (crawlStep web b c s))
    {s t : CrawlState} (hr : Reaches web b c mp s t) (hs : P s) : P t := by
  induction hr with
  | refl s => exact hs
  | step s t h1 h2 h ih => exact ih (hstep s h1 h2 hs)

/-- The final state of the loop is reached from its starting state. -/
theorem crawlLoop_reached (web : Web) (b c : String) (mp : Nat) (s : CrawlState) :
    Reaches web b c mp s (crawlLoop web b c mp s) := by
  by_cases h : s.frontier ≠ [] ∧ s.scraped.length < mp
  · unfold crawlLoop
    rw [dif_pos h]
    exact Reaches.step s _ h.1 h.2 (crawlLoop_reached web b c mp (crawlStep web b c s))
  · unfold crawlLoop
    rw [dif_neg h]
    exact Reaches.refl s
termination_by (mp - s.scraped.length, s.frontier.length)
decreasing_by
  obtain ⟨hne, hlt⟩ := h
  obtain ⟨e, rest, hfr⟩ : ∃ e rest, s.frontier = e :: rest := by
    cases hx : s.frontier with
    | nil => exact absurd hx hne
    | cons e rest => exact ⟨e, rest, rfl⟩
  rcases crawlStep_cases web b c s e rest hfr with
    hcase | ⟨stx, hcase⟩ | ⟨stx, news, hcase, _⟩
  · rw [hcase]
    apply Prod.Lex.right
    simp [hfr]
  · rw [hcase]
    apply Prod.Lex.left
    simp only [List.length_append, List.length_cons, List.length_nil]
    omega
  · rw [hcase]
    apply Prod.Lex.left
    simp only [List.length_append, List.length_cons, List.length_nil]
    omega

/-! ## Conversion Stage -/

/-- Outcome of one `subprocess.run(["libreoffice", ...], timeout=...)`
invocation: an exit code, a `TimeoutExpired`, or some other raised
exception. -/
inductive ConvOutcome
  | exitCode (code : Nat)
  | timedOut
  | raised
deriving DecidableEq

/-- The external converter as an oracle over
(input path, timeout seconds, output directory). -/
def Converter := String → Nat → String → ConvOutcome

/-- Per-file conversion status (spec's `ConversionResult`). -/
inductive ConvStatus
  | converted
  | failed
  | alreadyPdf
  | unsupported
deriving DecidableEq

/-- `os.path.dirname`. -/
def dirname (p : String) : String :=
  String.intercalate "/" ((pySplit p '/').dropLast)

/-- The `timeout=30` of the LibreOffice invocation. -/
def libreoffice_timeout : Nat := 30

/-- `set(attachment_files)` as a deduplicated list (Python's set iteration
order is unspecified; this canonical determinization keeps one occurrence
per distinct path, and no claim depends on the order). -/
def pyUnique : List String → List String
  | [] => []
  | x :: xs => if xs.contains x then pyUnique xs else x :: pyUnique xs

/-- The body of the per-file `try` block of `convert_attachments_to_pdf`:
`file_extension = file_path.split(".")[-1].lower()`; office formats go to
the external converter (`timeout=30`, output alongside the source file) and
a non-zero exit code, a timeout (`TimeoutExpired`) or any other exception is
caught and recorded as a failure for that file alone; `pdf` is a logged
no-op; anything else is logged as unsupported. -/
def convertOne (conv : Converter) (file_path : String) : String × ConvStatus :=
  if ["doc", "docx", "pptx", "ppt"].contains (pyLower (lastSegD file_path '.')) then
    match conv file_path libreoffice_timeout (dirname file_path) with
    | ConvOutcome.exitCode 0 => (file_path, ConvStatus.converted)
    | ConvOutcome.exitCode _ => (file_path, ConvStatus.failed)
    | ConvOutcome.timedOut => (file_path, ConvStatus.failed)
    | ConvOutcome.raised => (file_path, ConvStatus.failed)
  else if pyLower (lastSegD file_path '.') = "pdf" then
    (file_path, ConvStatus.alreadyPdf)
  else (file_path, ConvStatus.unsupported)

/-- `convert_attachments_to_pdf()`: iterate over `set(attachment_files)`,
converting each unique path in isolation.  The returned list records the
per-file outcomes; the function is total — no file's outcome can abort the
batch. -/
def convert_attachments_to_pdf (conv : Converter) (attachment_files : List String) :
    List (String × ConvStatus) :=
  (pyUnique attachment_files).map (convertOne conv)

/-- `convert_markdown_to_pdf(path, output_dir)`: renders the Markdown file
at `path` into `output_dir/<basename>.pdf` (rendering itself is abstracted:
the output file's bytes are not inspected by any claim) and records the
output path.  Returns the updated store and the output path. -/
def convert_markdown_to_pdf (path output_dir : String) (st : Store) :
    Store × String :=
  let content := ((st.fs.lookup path).getD "")
  let output_path := output_dir ++ "/" ++ (splitext (lastSegD path '/')).1 ++ ".pdf"
  ({ st with fs := fsWrite st.fs output_path content,
             pdfOutputs := st.pdfOutputs ++ [output_path] }, output_path)

/-! ## Crawl invariants -/

theorem frontier_cons_of_ne_nil {s : CrawlState} (h : s.frontier ≠ []) :
    ∃ e rest, s.frontier = e :: rest :=
  match hx : s.frontier with
  | [] => absurd hx h
  | e :: rest => ⟨e, rest, rfl⟩

/-- Each iteration grows the visited set by at most one URL. -/
theorem crawlStep_scraped_le (web : Web) (b c : String) (s : CrawlState) :
    (crawlStep web b c s).scraped.length ≤ s.scraped.length + 1 := by
  by_cases h : s.frontier = []
  · have hstep : crawlStep web b c s = s := by
      unfold crawlStep
      rw [h]
    rw [hstep]
    omega
  · obtain ⟨e, rest, hfr⟩ := frontier_cons_of_ne_nil h
    rcases crawlStep_cases web b c s e rest hfr with hc1 | ⟨stx, hc2⟩ | ⟨stx, news, hc3, _⟩
    · rw [hc1]
      exact Nat.le_succ _
    · rw [hc2]
      show (s.scraped ++ [e.url]).length ≤ s.scraped.length + 1
      simp only [List.length_append, List.length_cons, List.length_nil]
      omega
    · rw [hc3]
      show (s.scraped ++ [e.url]).length ≤ s.scraped.length + 1
      simp only [List.length_append, List.length_cons, List.length_nil]
      omega

/-- The visited-set cardinality bound is preserved by every guarded step. -/
theorem scraped_bound_invariant {web : Web} {b c : String} {mp : Nat}
    {s t : CrawlState} (hr : Reaches web b c mp s t)
    (hs : s.scraped.length ≤ mp) : t.scraped.length ≤ mp := by
  refine Reaches.invariant (fun s => s.scraped.length ≤ mp) ?_ hr hs
  intro s hne hlt _
  have := crawlStep_scraped_le web b c s
  omega

/-- Domain scoping invariant: every visited URL and every frontier URL has
the crawl's base domain as its host. -/
def DomainInv (b : String) (s : CrawlState) : Prop :=
  (∀ u ∈ s.scraped, netlocOf u = b) ∧ (∀ e ∈ s.frontier, netlocOf e.url = b)

theorem domainInv_step (web : Web) (b c : String) (s : CrawlState)
    (hne : s.frontier ≠ []) (hinv : DomainInv b s) :
    DomainInv b (crawlStep web b c s) := by
  obtain ⟨e, rest, hfr⟩ := frontier_cons_of_ne_nil hne
  obtain ⟨hscr, hfro⟩ := hinv
  have hrest : ∀ x ∈ rest, netlocOf x.url = b := by
    intro x hx
    exact hfro x (by rw [hfr]; exact List.mem_cons_of_mem e hx)
  have hhead : netlocOf e.url = b := hfro e (by rw [hfr]; exact List.mem_cons_self e rest)
  rcases crawlStep_cases web b c s e rest hfr with hc1 | ⟨stx, hc2⟩ | ⟨stx, news, hc3, hnet⟩
  · rw [hc1]
    exact ⟨hscr, hrest⟩
  · rw [hc2]
    refine ⟨?_, hrest⟩
    intro u hu
    rcases List.mem_append.mp hu with h | h
    · exact hscr u h
    · rw [List.mem_singleton.mp h]; exact hhead
  · rw [hc3]
    constructor
    · intro u hu
      rcases List.mem_append.mp hu with h | h
      · exact hscr u h
      · rw [List.mem_singleton.mp h]; exact hhead
    · intro x hx
      rcases List.mem_append.mp hx with h | h
      · exact hrest x h
      · rcases List.mem_map.mp h with ⟨u, hu, rfl⟩
        exact hnet u hu

/-! ## Claim theorems -/

/-- C1 (confirmed).  For every valid crawl target (non-empty start URL,
non-empty company name, positive page budget), every state reachable during
the run of the crawl orchestrator — including the loop's final state, which
is reachable by the last two conjuncts — has at most `max_pages` URLs in
the visited set. -/
theorem C1_visited_never_exceeds_max_pages (web : Web)
    (start_url company_name : String) (max_pages : Int) (st : Store)
    (t : CrawlState) (hs : start_url ≠ "") (hc : company_name ≠ "")
    (hm : 0 < max_pages)
    (ht : Reaches web (netlocOf start_url) company_name max_pages.toNat
      (initCrawl start_url st) t) :
    (t.scraped.length : Int) ≤ max_pages ∧
    scrape_entire_website web start_url company_name max_pages st =
      Except.ok (crawlLoop web (netlocOf start_url) company_name max_pages.toNat
        (initCrawl start_url st)) ∧
    Reaches web (netlocOf start_url) company_name max_pages.toNat
      (initCrawl start_url st)
      (crawlLoop web (netlocOf start_url) company_name max_pages.toNat
        (initCrawl start_url st)) := by
  refine ⟨?_, ?_, crawlLoop_reached _ _ _ _ _⟩
  · have hP : t.scraped.length ≤ max_pages.toNat :=
      scraped_bound_invariant ht (by simp [initCrawl])
    omega
  · unfold scrape_entire_website
    rw [if_neg hs, if_neg hc, if_neg (by omega : ¬ max_pages ≤ 0)]

/-- Witness for C1 at a concrete input: the unreachable web, one-page
budget, instantiated at the initial state itself. -/
def webNone : Web := fun _ => none

def emptyStore : Store := ⟨[], [], [], []⟩

theorem C1_witness :
    ("http://example.com" ≠ "" ∧ "Example" ≠ "" ∧ (0 : Int) < 1) ∧
    ((initCrawl "http://example.com" emptyStore).scraped.length : Int) ≤ 1 :=
  ⟨⟨by decide, by decide, by decide⟩,
    (C1_visited_never_exceeds_max_pages webNone "http://example.com" "Example" 1
      emptyStore (initCrawl "http://example.com" emptyStore) (by decide) (by decide)
      (by decide)
      (Reaches.refl (initCrawl "http://example.com" emptyStore))).1⟩

/-- C2 (confirmed).  Every URL ever added to the visited set during a crawl
run has host (netloc) exactly equal to the host of the start URL: domain
scoping never leaks to another host. -/
theorem C2_domain_scoping_never_leaks (web : Web)
    (start_url company_name : String) (max_pages : Nat) (st : Store)
    (t : CrawlState)
    (ht : Reaches web (netlocOf start_url) company_name max_pages
      (initCrawl start_url st) t) :
    ∀ u ∈ t.scraped, netlocOf u = netlocOf start_url := by
  have hinv : DomainInv (netlocOf start_url) t := by
    refine Reaches.invariant (DomainInv (netlocOf start_url))
      (fun s hne _ hP => domainInv_step web _ company_name s hne hP) ht ?_
    constructor
    · intro u hu; simp [initCrawl] at hu
    · intro e he
      simp only [initCrawl, List.mem_singleton] at he
      rw [he]
  exact hinv.1

/-- A two-page site (the start page links to `/about`), for the C2
witness. -/
def webTwo : Web := fun u =>
  if u = "http://x.com/" then
    some ⟨"text/html", "", ⟨none, none, []⟩, ["http://x.com/about"]⟩
  else if u = "http://x.com/about" then
    some ⟨"text/html", "", ⟨none, none, []⟩, []⟩
  else none

/-- Witness for C2: after two genuine loop iterations of a crawl of
`webTwo`, the discovered-and-visited URL `http://x.com/about` has the
start URL's host. -/
theorem C2_witness :
    netlocOf "http://x.com/about" = netlocOf "http://x.com/" :=
  C2_domain_scoping_never_leaks webTwo "http://x.com/" "Example" 2 emptyStore
    (crawlStep webTwo (netlocOf "http://x.com/") "Example"
      (crawlStep webTwo (netlocOf "http://x.com/") "Example"
        (initCrawl "http://x.com/" emptyStore)))
    (Reaches.step _ _ (by decide) (by decide)
      (Reaches.step _ _ (by decide) (by decide) (Reaches.refl _)))
    "http://x.com/about" (by decide)

/-- Breadth-first invariant: frontier depths are nondecreasing front to
back, every fetch so far is at most as deep as everything still queued,
the fetch trace is nondecreasing in depth, and the frontier spans at most
two consecutive depth levels. -/
def DepthInv (s : CrawlState) : Prop :=
  List.Pairwise (fun a b => a ≤ b) (s.frontier.map Entry.depth) ∧
  (∀ f ∈ s.fetched, ∀ x ∈ s.frontier, f.depth ≤ x.depth) ∧
  List.Pairwise (fun a b => a ≤ b) (s.fetched.map Entry.depth) ∧
  (∀ x ∈ s.frontier, ∀ y ∈ s.frontier, x.depth ≤ y.depth + 1)

theorem depthInv_step (web : Web) (b c : String) (s : CrawlState)
    (hne : s.frontier ≠ []) (hinv : DepthInv s) : DepthInv (crawlStep web b c s) := by
  obtain ⟨e, rest, hfr⟩ := frontier_cons_of_ne_nil hne
  obtain ⟨hfro, hff, hfet, hspan⟩ := hinv
  rw [hfr, List.map_cons, List.pairwise_cons] at hfro
  obtain ⟨hhead, hrestP⟩ := hfro
  have hheadE : ∀ x ∈ rest, e.depth ≤ x.depth := fun x hx =>
    hhead _ (List.mem_map_of_mem Entry.depth hx)
  have hmemE : e ∈ s.frontier := by rw [hfr]; exact List.mem_cons_self e rest
  have hmemR : ∀ x ∈ rest, x ∈ s.frontier := fun x hx => by
    rw [hfr]; exact List.mem_cons_of_mem e hx
  have hffE : ∀ f ∈ s.fetched, f.depth ≤ e.depth := fun f hf => hff f hf e hmemE
  have hffR : ∀ f ∈ s.fetched, ∀ x ∈ rest, f.depth ≤ x.depth := fun f hf x hx =>
    hff f hf x (hmemR x hx)
  have hspanR : ∀ x ∈ rest, x.depth ≤ e.depth + 1 := fun x hx =>
    hspan x (hmemR x hx) e hmemE
  have hspanRR : ∀ x ∈ rest, ∀ y ∈ rest, x.depth ≤ y.depth + 1 := fun x hx y hy =>
    hspan x (hmemR x hx) y (hmemR y hy)
  have hfetNew : List.Pairwise (fun a b => a ≤ b) ((s.fetched ++ [e]).map Entry.depth) := by
    rw [List.map_append, List.pairwise_append]
    refine ⟨hfet, by simp, ?_⟩
    intro d1 hd1 d2 hd2
    rcases List.mem_map.mp hd1 with ⟨f, hf, rfl⟩
    simp only [List.map_cons, List.map_nil, List.mem_singleton] at hd2
    rw [hd2]
    exact hffE f hf
  rcases crawlStep_cases web b c s e rest hfr with hc1 | ⟨stx, hc2⟩ | ⟨stx, news, hc3, _⟩
  · rw [hc1]
    exact ⟨hrestP, fun f hf x hx => hffR f hf x hx, hfet, hspanRR⟩
  · rw [hc2]
    refine ⟨hrestP, ?_, hfetNew, hspanRR⟩
    show ∀ f ∈ s.fetched ++ [e], ∀ x ∈ rest, f.depth ≤ x.depth
    intro f hf x hx
    rcases List.mem_append.mp hf with h | h
    · exact hffR f h x hx
    · rw [List.mem_singleton.mp h]
      exact hheadE x hx
  · rw [hc3]
    have hnewsD : ∀ x ∈ news.map (fun u => Entry.mk u (e.depth + 1)),
        x.depth = e.depth + 1 := by
      intro x hx
      rcases List.mem_map.mp hx with ⟨u, hu, rfl⟩
      rfl
    refine ⟨?_, ?_, hfetNew, ?_⟩
    · show List.Pairwise (fun a b => a ≤ b)
        ((rest ++ news.map (fun u => Entry.mk u (e.depth + 1))).map Entry.depth)
      rw [List.map_append, List.pairwise_append]
      refine ⟨hrestP, ?_, ?_⟩
      · apply List.pairwise_of_forall_mem_list
        intro d1 hd1 d2 hd2
        rcases List.mem_map.mp hd1 with ⟨x, hx, rfl⟩
        rcases List.mem_map.mp hd2 with ⟨y, hy, rfl⟩
        rw [hnewsD x hx, hnewsD y hy]
      · intro d1 hd1 d2 hd2
        rcases List.mem_map.mp hd1 with ⟨x, hx, rfl⟩
        rcases List.mem_map.mp hd2 with ⟨y, hy, rfl⟩
        rw [hnewsD y hy]
        exact hspanR x hx
    · show ∀ f ∈ s.fetched ++ [e],
        ∀ x ∈ rest ++ news.map (fun u => Entry.mk u (e.depth + 1)), f.depth ≤ x.depth
      intro f hf x hx
      have hfd : f.depth ≤ e.depth := by
        rcases List.mem_append.mp hf with h | h
        · exact hffE f h
        · rw [List.mem_singleton.mp h]
      rcases List.mem_append.mp hx with h | h
      · rcases List.mem_append.mp hf with h' | h'
        · exact hffR f h' x h
        · rw [List.mem_singleton.mp h']
          exact hheadE x h
      · rw [hnewsD x h]
        omega
    · show ∀ x ∈ rest ++ news.map (fun u => Entry.mk u (e.depth + 1)),
        ∀ y ∈ rest ++ news.map (fun u => Entry.mk u (e.depth + 1)),
          x.depth ≤ y.depth + 1
      intro x hx y hy
      rcases List.mem_append.mp hx with h | h
      · rcases List.mem_append.mp hy with h' | h'
        · exact hspanRR x h y h'
        · rw [hnewsD y h']
          have := hspanR x h
          omega
      · rw [hnewsD x h]
        rcases List.mem_append.mp hy with h' | h'
        · have := hheadE y h'
          omega
        · rw [hnewsD y h']
          omega

/-- C3 (confirmed).  The crawl fetches in breadth-first order: the frontier
is FIFO and every link found on a page enters the frontier tail with depth
one more than the page it was discovered on (the depth annotation of
`Entry`), so the sequence of fetched entries is nondecreasing in discovery
depth — every entry discovered at depth `d` is fetched before any entry
discovered at depth `d + 1`.  The second conjunct extends this to the
future: everything still queued is at least as deep as everything already
fetched. -/
theorem C3_breadth_first_order (web : Web) (start_url company_name : String)
    (max_pages : Nat) (st : Store) (t : CrawlState)
    (ht : Reaches web (netlocOf start_url) company_name max_pages
      (initCrawl start_url st) t) :
    List.Pairwise (fun a b => a ≤ b) (t.fetched.map Entry.depth) ∧
    (∀ f ∈ t.fetched, ∀ x ∈ t.frontier, f.depth ≤ x.depth) := by
  have hinv : DepthInv t := by
    refine Reaches.invariant DepthInv
      (fun s hne _ hP => depthInv_step web _ company_name s hne hP) ht ?_
    refine ⟨?_, ?_, ?_, ?_⟩
    · simp [initCrawl]
    · intro f hf
      simp [initCrawl] at hf
    · simp [initCrawl]
    · intro x hx y hy
      simp only [initCrawl, List.mem_singleton] at hx hy
      subst hx
      subst hy
      simp
  exact ⟨hinv.2.2.1, hinv.2.1⟩

/-- Witness for C3: one genuine loop iteration (the start URL's fetch
fails) from the initial state. -/
theorem C3_witness :
    List.Pairwise (fun a b => a ≤ b)
      ((crawlStep webNone (netlocOf "http://example.com") "Example"
        (initCrawl "http://example.com" emptyStore)).fetched.map Entry.depth) :=
  (C3_breadth_first_order webNone "http://example.com" "Example" 1 emptyStore
    (crawlStep webNone (netlocOf "http://example.com") "Example"
      (initCrawl "http://example.com" emptyStore))
    (Reaches.step _ _ (by decide) (by decide) (Reaches.refl _))).1

/-! ## Collision-resolution lemmas (C4) -/

/-- `os.path.splitext` splits the name: root ++ ext = name. -/
theorem splitext_append (p : String) : (splitext p).1 ++ (splitext p).2 = p := by
  cases h : List.findIdx? (fun c => decide (c = '.')) p.data.reverse with
  | none =>
    have hs : splitext p = (p, "") := by
      simp [splitext, h]
    rw [hs]
    exact String.append_empty p
  | some i =>
    by_cases hany : ∃ x ∈ List.take (p.length - 1 - i) p.data, ¬x = '.'
    · have hs : splitext p =
          (String.mk (List.take (p.length - 1 - i) p.data),
           String.mk (List.drop (p.length - 1 - i) p.data)) := by
        simp [splitext, h, hany]
      rw [hs]
      show String.mk (List.take (p.length - 1 - i) p.data ++
        List.drop (p.length - 1 - i) p.data) = p
      rw [List.take_append_drop]
    · have hs : splitext p = (p, "") := by
        simp [splitext, h, hany]
      rw [hs]
      exact String.append_empty p

/-- The path chosen by the collision loop never names an existing file:
no attachment write ever overwrites. -/
theorem resolveSavePath_fresh (fs : List (String × String)) (dir fn : String) :
    pathExists fs (resolveSavePath fs dir fn) = false := by
  unfold resolveSavePath
  by_cases h : pathExists fs (dir ++ "/" ++ fn) = true
  · rw [if_pos h]
    exact Nat.find_spec (exists_free_suffix fs dir (splitext fn).1 (splitext fn).2)
  · rw [if_neg h]
    simp only [Bool.not_eq_true] at h
    exact h

/-- When the plain destination is taken, the loop picks the smallest free
numeric suffix (counting from 1). -/
theorem resolveSavePath_least (fs : List (String × String)) (dir fname : String)
    (h : pathExists fs (dir ++ "/" ++ fname) = true) :
    ∃ n, 1 ≤ n ∧
      resolveSavePath fs dir fname =
        dir ++ "/" ++ suffixedName (splitext fname).1 (splitext fname).2 n ∧
      pathExists fs
        (dir ++ "/" ++ suffixedName (splitext fname).1 (splitext fname).2 n) = false ∧
      ∀ m, 1 ≤ m → m < n →
        pathExists fs
          (dir ++ "/" ++ suffixedName (splitext fname).1 (splitext fname).2 m) = true := by
  refine ⟨Nat.find (exists_free_suffix fs dir (splitext fname).1 (splitext fname).2) + 1,
    by omega, ?_, ?_, ?_⟩
  · unfold resolveSavePath
    rw [if_pos h]
  · exact Nat.find_spec (exists_free_suffix fs dir (splitext fname).1 (splitext fname).2)
  · intro m h1 h2
    have hmin := Nat.find_min (exists_free_suffix fs dir (splitext fname).1 (splitext fname).2)
      (show m - 1 < Nat.find (exists_free_suffix fs dir (splitext fname).1 (splitext fname).2)
        by omega)
    have hm : m - 1 + 1 = m := by omega
    rw [hm] at hmin
    simp only [Bool.not_eq_false] at hmin
    exact hmin

theorem fsWrite_fresh (fs : List (String × String)) (p c : String)
    (h : pathExists fs p = false) : fsWrite fs p c = fs ++ [(p, c)] := by
  unfold fsWrite
  rw [if_neg (by simp [h])]

theorem pathExists_append_single (fs : List (String × String)) (q c x : String) :
    pathExists (fs ++ [(q, c)]) x = (pathExists fs x || (x == q)) := by
  unfold pathExists
  simp only [List.map_append, List.map_cons, List.map_nil, List.mem_append,
    List.mem_singleton]
  by_cases h1 : x ∈ fs.map Prod.fst
  · simp [h1]
  · by_cases h2 : x = q
    · simp [h1, h2]
    · simp [h1, h2]

/-- The suffixed name is strictly longer than the plain name, so they are
never equal. -/
theorem suffixedName_ne_plain (fn : String) (n : Nat) :
    suffixedName (splitext fn).1 (splitext fn).2 n ≠ fn := by
  intro h
  have hlen := congrArg String.length h
  rw [suffixedName] at hlen
  conv_rhs at hlen => rw [← splitext_append fn]
  simp only [String.length_append] at hlen
  have hrepr : 1 ≤ (Nat.repr n).length := by
    rw [repr_eq_decimalDigits]
    show 1 ≤ (decimalDigits n).length
    rw [decimalDigits]
    by_cases hn : n < 10
    · simp [hn]
    · simp [hn]
  omega

theorem string_append_left_cancel {a x y : String} (h : a ++ x = a ++ y) : x = y := by
  have h' := congrArg String.data h
  simp only [String.data_append] at h'
  have := List.append_cancel_left h'
  cases x with
  | mk dx =>
    cases y with
    | mk dy => exact congrArg String.mk this

/-- C4 (confirmed).  Two attachment saves with the same base file name into
the same company folder produce two distinct stored paths, each fresh at
write time (so no previously saved attachment file is ever overwritten, and
both filesystems are strict extensions); into a folder where neither the
plain name nor the `_1` name exists, the second save bears suffix `_1`; and
in general a colliding save receives the smallest free numeric suffix. -/
theorem C4_no_attachment_overwrite
    (st st1 st2 : Store) (u1 u2 c1 c2 folder co dir fn p1 p2 : String)
    (hdir : dir = folder ++ "/" ++ co)
    (hfn : fn = lastSegD u1 '/')
    (hsame : lastSegD u2 '/' = fn)
    (he1 : attachment_extensions.contains (pyLower (lastSegD u1 '.')) = true)
    (he2 : attachment_extensions.contains (pyLower (lastSegD u2 '.')) = true)
    (hst1 : st1 = save_extensions u1 c1 folder attachment_extensions co st)
    (hst2 : st2 = save_extensions u2 c2 folder attachment_extensions co st1)
    (hp1 : p1 = resolveSavePath st.fs dir fn)
    (hp2 : p2 = resolveSavePath st1.fs dir fn) :
    st1.attachment_files = st.attachment_files ++ [p1] ∧
    st2.attachment_files = st1.attachment_files ++ [p2] ∧
    st1.fs = st.fs ++ [(p1, c1)] ∧
    st2.fs = st1.fs ++ [(p2, c2)] ∧
    pathExists st.fs p1 = false ∧
    pathExists st1.fs p2 = false ∧
    p1 ≠ p2 ∧
    (pathExists st.fs (dir ++ "/" ++ fn) = false →
      pathExists st.fs
        (dir ++ "/" ++ suffixedName (splitext fn).1 (splitext fn).2 1) = false →
      p1 = dir ++ "/" ++ fn ∧
      p2 = dir ++ "/" ++ suffixedName (splitext fn).1 (splitext fn).2 1) ∧
    (∀ (fs : List (String × String)) (fname : String),
      pathExists fs (dir ++ "/" ++ fname) = true →
      ∃ n, 1 ≤ n ∧
        resolveSavePath fs dir fname =
          dir ++ "/" ++ suffixedName (splitext fname).1 (splitext fname).2 n ∧
        pathExists fs
          (dir ++ "/" ++ suffixedName (splitext fname).1 (splitext fname).2 n) = false ∧
        ∀ m, 1 ≤ m → m < n →
          pathExists fs
            (dir ++ "/" ++ suffixedName (splitext fname).1 (splitext fname).2 m) = true) := by
  have hshape1 : st1 =
      { st with fs := fsWrite st.fs p1 c1,
                attachment_files := st.attachment_files ++ [p1] } := by
    rw [hst1]
    unfold save_extensions
    rw [if_pos he1, ← hfn, ← hdir, ← hp1]
  have hfresh1 : pathExists st.fs p1 = false := by
    rw [hp1]; exact resolveSavePath_fresh st.fs dir fn
  have hfs1 : st1.fs = st.fs ++ [(p1, c1)] := by
    rw [hshape1]
    show fsWrite st.fs p1 c1 = st.fs ++ [(p1, c1)]
    exact fsWrite_fresh st.fs p1 c1 hfresh1
  have hshape2 : st2 =
      { st1 with fs := fsWrite st1.fs p2 c2,
                 attachment_files := st1.attachment_files ++ [p2] } := by
    rw [hst2]
    unfold save_extensions
    rw [if_pos he2, hsame, ← hdir, ← hp2]
  have hfresh2 : pathExists st1.fs p2 = false := by
    rw [hp2]; exact resolveSavePath_fresh st1.fs dir fn
  have hfs2 : st2.fs = st1.fs ++ [(p2, c2)] := by
    rw [hshape2]
    show fsWrite st1.fs p2 c2 = st1.fs ++ [(p2, c2)]
    exact fsWrite_fresh st1.fs p2 c2 hfresh2
  have hne : p1 ≠ p2 := by
    intro hEq
    have hmem : pathExists st1.fs p1 = true := by
      rw [hfs1, pathExists_append_single]
      simp
    rw [hEq, hfresh2] at hmem
    exact Bool.false_ne_true hmem
  refine ⟨by rw [hshape1], by rw [hshape2], hfs1, hfs2, hfresh1, hfresh2, hne, ?_, ?_⟩
  · intro hplain hsuf1
    have hp1v : p1 = dir ++ "/" ++ fn := by
      rw [hp1]
      unfold resolveSavePath
      rw [if_neg (by simp [hplain])]
    refine ⟨hp1v, ?_⟩
    have hplain1 : pathExists st1.fs (dir ++ "/" ++ fn) = true := by
      rw [hfs1, pathExists_append_single, hp1v]
      simp
    have hfree1 : pathExists st1.fs
        (dir ++ "/" ++ suffixedName (splitext fn).1 (splitext fn).2 1) = false := by
      rw [hfs1, pathExists_append_single, hsuf1, hp1v]
      simp only [Bool.false_or, beq_eq_false_iff_ne, ne_eq]
      intro hcontra
      exact suffixedName_ne_plain fn 1 (string_append_left_cancel hcontra)
    have hfind0 : Nat.find (exists_free_suffix st1.fs dir (splitext fn).1 (splitext fn).2) = 0 := by
      rw [Nat.find_eq_zero]
      exact hfree1
    rw [hp2]
    unfold resolveSavePath
    rw [if_pos hplain1, hfind0]
  · intro fs fname hEx
    exact resolveSavePath_least fs dir fname hEx

/-- Witness for C4: two saves of `brochure.pdf` (linked from two different
pages) into a fresh `Example` folder yield distinct paths and a strictly
extended filesystem. -/
theorem C4_witness :
    resolveSavePath emptyStore.fs ("temp/attachments" ++ "/" ++ "Example")
        "brochure.pdf" ≠
      resolveSavePath (save_extensions "http://example.com/brochure.pdf" "A"
          "temp/attachments" attachment_extensions "Example" emptyStore).fs
        ("temp/attachments" ++ "/" ++ "Example") "brochure.pdf" ∧
    (save_extensions "http://example.com/docs/brochure.pdf" "B" "temp/attachments"
        attachment_extensions "Example"
        (save_extensions "http://example.com/brochure.pdf" "A" "temp/attachments"
          attachment_extensions "Example" emptyStore)).fs =
      (save_extensions "http://example.com/brochure.pdf" "A" "temp/attachments"
          attachment_extensions "Example" emptyStore).fs ++
        [(resolveSavePath (save_extensions "http://example.com/brochure.pdf" "A"
            "temp/attachments" attachment_extensions "Example" emptyStore).fs
            ("temp/attachments" ++ "/" ++ "Example") "brochure.pdf", "B")] := by
  have h := C4_no_attachment_overwrite emptyStore
    (save_extensions "http://example.com/brochure.pdf" "A" "temp/attachments"
      attachment_extensions "Example" emptyStore)
    (save_extensions "http://example.com/docs/brochure.pdf" "B" "temp/attachments"
      attachment_extensions "Example"
      (save_extensions "http://example.com/brochure.pdf" "A" "temp/attachments"
        attachment_extensions "Example" emptyStore))
    "http://example.com/brochure.pdf" "http://example.com/docs/brochure.pdf" "A" "B"
    "temp/attachments" "Example" ("temp/attachments" ++ "/" ++ "Example") "brochure.pdf"
    (resolveSavePath emptyStore.fs ("temp/attachments" ++ "/" ++ "Example")
      "brochure.pdf")
    (resolveSavePath (save_extensions "http://example.com/brochure.pdf" "A"
        "temp/attachments" attachment_extensions "Example" emptyStore).fs
      ("temp/attachments" ++ "/" ++ "Example") "brochure.pdf")
    rfl (by decide) (by decide) (by decide) (by decide) rfl rfl rfl rfl
  exact ⟨h.2.2.2.2.2.2.1, h.2.2.2.1⟩

/-! ## C5: classification decision order -/

/-- Modelled from the claim's words, for comparison with the source's
classifier: the extension of the *URL path's* final segment, compared
case-insensitively (the leading dot stripped). -/
def urlPathExtension (url : String) : String :=
  match ((splitext (lastSegD (pathOfUrl url) '/')).2).data with
  | [] => ""
  | _ :: cs => pyLower (String.mk cs)

/-- Modelled from the claim's words: classify by the URL path's extension,
then by the declared content type. -/
def specClassify (url contentTypeHeader : String) : Classification :=
  if attachment_extensions.contains (urlPathExtension url) then
    Classification.attachment
  else if strContains (pyLower contentTypeHeader) "text/html" then
    Classification.htmlPage
  else Classification.ignored

/-- C5 counterexample: the source tests whether the *whole URL string*
(lowercased) ends in `.{ext}`, not the URL's path extension.  For
`http://example.com/download?file=report.pdf` served as `text/html`, the
path is `/download` with no extension, so the claim's rule says HTMLPage,
but the code classifies it as an Attachment (the URL string ends in
`.pdf`). -/
theorem C5_counterexample :
    urlPathExtension "http://example.com/download?file=report.pdf" = "" ∧
    specClassify "http://example.com/download?file=report.pdf" "text/html" =
      Classification.htmlPage ∧
    classify "http://example.com/download?file=report.pdf" "text/html" =
      Classification.attachment := by
  exact ⟨by decide, by decide, by decide⟩

/-- C5 (corrected & amended).  Decision order of the classifier, as the
claim states it except that test (a) is `url.lower().endswith(f".{ext}")`
on the whole URL string rather than on the URL's path extension; and the
crawl step acts on the three outcomes exactly as claimed: Attachment →
saved via the attachment store, no links extracted; HTMLPage → reported
and link-extracted; otherwise ignored (only the visited set and fetch
trace change). -/
theorem C5_classification_decision (web : Web) (b c : String) (s : CrawlState)
    (e : Entry) (rest : List Entry) (resp : Response)
    (hfr : s.frontier = e :: rest) (hne : e.url ≠ "")
    (hns : s.scraped.contains e.url = false) (hw : web e.url = some resp) :
    (classify e.url resp.contentType =
      (if attachment_extensions.any (fun ext => strEndsWith (pyLower e.url) ("." ++ ext)) then
        Classification.attachment
       else if strContains (pyLower resp.contentType) "text/html" then
        Classification.htmlPage
       else Classification.ignored)) ∧
    (classify e.url resp.contentType = Classification.attachment →
      crawlStep web b c s =
        { s with frontier := rest, scraped := s.scraped ++ [e.url],
                 fetched := s.fetched ++ [e],
                 store := save_extensions e.url resp.body attachments_folder
                   attachment_extensions c s.store }) ∧
    (classify e.url resp.contentType = Classification.htmlPage →
      crawlStep web b c s =
        { s with
            frontier := rest ++ (extractNewUrls resp.links b (s.scraped ++ [e.url])
              (rest.map Entry.url)).map (fun u => Entry.mk u (e.depth + 1)),
            scraped := s.scraped ++ [e.url], fetched := s.fetched ++ [e],
            store := generate_page_report e.url resp.doc c s.store }) ∧
    (classify e.url resp.contentType = Classification.ignored →
      crawlStep web b c s =
        { s with frontier := rest, scraped := s.scraped ++ [e.url],
                 fetched := s.fetched ++ [e] }) := by
  have hnc : ¬ s.scraped.contains e.url = true := by
    rw [hns]
    exact Bool.false_ne_true
  refine ⟨rfl, ?_, ?_, ?_⟩
  · intro hc
    rw [crawlStep_eq_visit web b c s e rest hfr]
    unfold crawlVisit
    rw [if_neg hne, if_neg hnc]
    simp only [hw, hc]
  · intro hc
    rw [crawlStep_eq_visit web b c s e rest hfr]
    unfold crawlVisit
    rw [if_neg hne, if_neg hnc]
    simp only [hw, hc]
  · intro hc
    rw [crawlStep_eq_visit web b c s e rest hfr]
    unfold crawlVisit
    rw [if_neg hne, if_neg hnc]
    simp only [hw, hc]

/-- A one-page web serving a PDF attachment, for the C5 witness. -/
def webPdf : Web := fun u =>
  if u = "http://x.com/a.pdf" then
    some ⟨"application/pdf", "PDFBYTES", ⟨none, none, []⟩, []⟩
  else none

theorem C5_witness :
    crawlStep webPdf (netlocOf "http://x.com/a.pdf") "Example"
        (initCrawl "http://x.com/a.pdf" emptyStore) =
      { initCrawl "http://x.com/a.pdf" emptyStore with
          frontier := [],
          scraped := [] ++ ["http://x.com/a.pdf"],
          fetched := [] ++ [Entry.mk "http://x.com/a.pdf" 0],
          store := save_extensions "http://x.com/a.pdf" "PDFBYTES"
            attachments_folder attachment_extensions "Example" emptyStore } :=
  (C5_classification_decision webPdf (netlocOf "http://x.com/a.pdf") "Example"
    (initCrawl "http://x.com/a.pdf" emptyStore) (Entry.mk "http://x.com/a.pdf" 0) []
    ⟨"application/pdf", "PDFBYTES", ⟨none, none, []⟩, []⟩
    rfl (by decide) rfl rfl).2.1 (by decide)

/-! ## C6: domain key derivation -/

/-- Modelled from the claim's words: "take the URL's host; if the host has
more than two dot-separated labels, use the second-to-last label, else use
the first label". -/
def specDomainKey (host : String) : String :=
  if (pySplit host '.').length > 2 then (pySplit host '.').reverse.getD 1 ""
  else (pySplit host '.').getD 0 ""

theorem domainKeyOf_eq_spec (h : String) : domainKeyOf h = specDomainKey h := by
  unfold domainKeyOf specDomainKey
  by_cases hl : (pySplit h '.').length > 2
  · rw [if_pos hl, if_pos hl]
    rw [List.getD_eq_getElem?_getD, List.getD_eq_getElem?_getD,
      List.getElem?_reverse (by omega)]
    congr 2
  · rw [if_neg hl, if_neg hl]

/-- C6 (confirmed).  The aggregate report is keyed exactly by the claim's
derivation (second-to-last label when the host has more than two labels,
else the first label), written by append under `temp/markdown/<key>.md`
and recorded once in the report-path cache; when the URL has no host the
call is a no-op that writes nothing and records no path. -/
theorem C6_domain_key_derivation (url : String) (doc : HtmlDoc)
    (company_name : String) (st : Store) :
    (netlocOf url = "" → generate_page_report url doc company_name st = st) ∧
    (netlocOf url ≠ "" →
      generate_page_report url doc company_name st =
        { st with
            fs := fsAppend st.fs
              ("temp/markdown/" ++ specDomainKey (netlocOf url) ++ ".md")
              (reportContent url doc),
            markdown_files :=
              if st.markdown_files.contains
                  ("temp/markdown/" ++ specDomainKey (netlocOf url) ++ ".md") then
                st.markdown_files
              else st.markdown_files ++
                ["temp/markdown/" ++ specDomainKey (netlocOf url) ++ ".md"] }) := by
  constructor
  · intro h
    unfold generate_page_report
    rw [if_pos h]
  · intro h
    unfold generate_page_report
    rw [if_neg h, domainKeyOf_eq_spec]

theorem C6_witness :
    generate_page_report "https://www.example.co.uk/page" ⟨none, none, []⟩
        "Example" emptyStore =
      { emptyStore with
          fs := fsAppend emptyStore.fs
            ("temp/markdown/" ++ specDomainKey (netlocOf "https://www.example.co.uk/page") ++ ".md")
            (reportContent "https://www.example.co.uk/page" ⟨none, none, []⟩),
          markdown_files :=
            if emptyStore.markdown_files.contains
                ("temp/markdown/" ++ specDomainKey (netlocOf "https://www.example.co.uk/page") ++ ".md") then
              emptyStore.markdown_files
            else emptyStore.markdown_files ++
              ["temp/markdown/" ++ specDomainKey (netlocOf "https://www.example.co.uk/page") ++ ".md"] } ∧
    generate_page_report "nohost" ⟨none, none, []⟩ "Example" emptyStore = emptyStore ∧
    specDomainKey "www.example.co.uk" = "co" ∧
    specDomainKey "example.com" = "example" := by
  refine ⟨(C6_domain_key_derivation "https://www.example.co.uk/page" ⟨none, none, []⟩
      "Example" emptyStore).2 (by decide),
    (C6_domain_key_derivation "nohost" ⟨none, none, []⟩ "Example" emptyStore).1
      (by decide), by decide, by decide⟩

/-! ## C7: input validation -/

/-- C7 counterexample: the crawl does *not* fail fast on a non-empty but
malformed start URL.  `"foo"` lacks scheme and host (its netloc is empty,
and the repository's own — uncalled — `validate_website` rejects it), yet
`scrape_entire_website` returns successfully instead of raising. -/
theorem C7_counterexample :
    validate_website "foo" = false ∧
    netlocOf "foo" = "" ∧
    (scrape_entire_website webNone "foo" "c" 1 emptyStore).isOk = true := by
  exact ⟨by decide, by decide, rfl⟩

/-- C7 (corrected & amended).  The crawl invocation fails fast, before any
fetching, exactly when `startURL` is empty, `companyName` is empty, or
`maxPages ≤ 0`; well-formedness of the start URL is not validated (the
repository's `validate_website` is never called on this path), and any
non-empty start URL enters the crawl loop. -/
theorem C7_fail_fast_validation (web : Web) (start_url company_name : String)
    (max_pages : Int) (st : Store) :
    ((scrape_entire_website web start_url company_name max_pages st).isOk = false ↔
      (start_url = "" ∨ company_name = "" ∨ max_pages ≤ 0)) ∧
    (start_url ≠ "" → company_name ≠ "" → 0 < max_pages →
      scrape_entire_website web start_url company_name max_pages st =
        Except.ok (crawlLoop web (netlocOf start_url) company_name max_pages.toNat
          (initCrawl start_url st))) := by
  constructor
  · by_cases h1 : start_url = ""
    · simp [scrape_entire_website, h1, Except.isOk, Except.toBool]
    · by_cases h2 : company_name = ""
      · simp [scrape_entire_website, h1, h2, Except.isOk, Except.toBool]
      · by_cases h3 : max_pages ≤ 0
        · simp [scrape_entire_website, h1, h2, h3, Except.isOk, Except.toBool]
        · simp [scrape_entire_website, h1, h2, h3, Except.isOk, Except.toBool]
  · intro h1 h2 h3
    unfold scrape_entire_website
    rw [if_neg h1, if_neg h2, if_neg (by omega : ¬ max_pages ≤ 0)]

theorem C7_witness :
    scrape_entire_website webNone "http://x.com" "c" 5 emptyStore =
      Except.ok (crawlLoop webNone (netlocOf "http://x.com") "c" (5 : Int).toNat
        (initCrawl "http://x.com" emptyStore)) :=
  (C7_fail_fast_validation webNone "http://x.com" "c" 5 emptyStore).2
    (by decide) (by decide) (by decide)

/-! ## C8: conversion isolation -/

theorem convertOne_fst (conv : Converter) (p : String) :
    (convertOne conv p).1 = p := by
  unfold convertOne
  by_cases h : ["doc", "docx", "pptx", "ppt"].contains (pyLower (lastSegD p '.')) = true
  · rw [if_pos h]
    cases hx : conv p libreoffice_timeout (dirname p) with
    | exitCode n => cases n <;> rfl
    | timedOut => rfl
    | raised => rfl
  · rw [if_neg h]
    by_cases h2 : pyLower (lastSegD p '.') = "pdf"
    · rw [if_pos h2]
    · rw [if_neg h2]

/-- The status assigned to one file, spelled out as the claim describes. -/
theorem convertOne_snd (conv : Converter) (p : String) :
    (convertOne conv p).2 =
      (if ["doc", "docx", "pptx", "ppt"].contains (pyLower (lastSegD p '.')) then
        (match conv p libreoffice_timeout (dirname p) with
         | ConvOutcome.exitCode 0 => ConvStatus.converted
         | ConvOutcome.exitCode _ => ConvStatus.failed
         | ConvOutcome.timedOut => ConvStatus.failed
         | ConvOutcome.raised => ConvStatus.failed)
       else if pyLower (lastSegD p '.') = "pdf" then ConvStatus.alreadyPdf
       else ConvStatus.unsupported) := by
  unfold convertOne
  by_cases h : ["doc", "docx", "pptx", "ppt"].contains (pyLower (lastSegD p '.')) = true
  · rw [if_pos h, if_pos h]
    cases hx : conv p libreoffice_timeout (dirname p) with
    | exitCode n => cases n <;> rfl
    | timedOut => rfl
    | raised => rfl
  · rw [if_neg h, if_neg h]
    by_cases h2 : pyLower (lastSegD p '.') = "pdf"
    · rw [if_pos h2, if_pos h2]
    · rw [if_neg h2, if_neg h2]

theorem mem_pyUnique {p : String} : ∀ {l : List String}, p ∈ l → p ∈ pyUnique l := by
  intro l
  induction l with
  | nil => intro h; simp at h
  | cons x xs ih =>
    intro h
    unfold pyUnique
    by_cases hc : xs.contains x = true
    · rw [if_pos hc]
      rcases List.mem_cons.mp h with h1 | h1
      · subst h1
        exact ih (by simpa using hc)
      · exact ih h1
    · rw [if_neg hc]
      rcases List.mem_cons.mp h with h1 | h1
      · subst h1
        exact List.mem_cons_self _ _
      · exact List.mem_cons_of_mem _ (ih h1)

theorem lookup_map_convertOne (conv : Converter) (p : String) :
    ∀ (l : List String), p ∈ l →
      (l.map (convertOne conv)).lookup p = some ((convertOne conv p).2) := by
  intro l
  induction l with
  | nil => intro h; simp at h
  | cons q t ih =>
    intro h
    obtain ⟨k, v, hkv⟩ : ∃ k v, convertOne conv q = (k, v) :=
      ⟨(convertOne conv q).1, (convertOne conv q).2, rfl⟩
    have hk : k = q := by
      have hq := convertOne_fst conv q
      rw [hkv] at hq
      exact hq
    rw [hk] at hkv
    rw [List.map_cons, hkv]
    by_cases hpq : p = q
    · have hb : (p == q) = true := by simp [hpq]
      simp only [List.lookup, hb]
      rw [hpq, hkv]
    · have hb : (p == q) = false := by simp [hpq]
      simp only [List.lookup, hb]
      exact ih (by rcases List.mem_cons.mp h with h1 | h1
                   · exact absurd h1 hpq
                   · exact h1)

/-- C8 (confirmed).  Attachment conversion is isolated per file: each
unique collected path is processed exactly once (the result list is keyed
by exactly the deduplicated input); the recorded status of a path follows
its extension — office formats go through the external converter with the
30-second timeout, where exit code 0 converts and a non-zero exit code, a
timeout, or any other raised failure is recorded as `failed` for that file
only; `pdf` is a no-op (`alreadyPdf`); anything else is `unsupported` —
and a file's outcome depends only on the converter's behavior on that
file, never preventing the remaining files from being processed. -/
theorem C8_conversion_isolation (conv : Converter) (files : List String)
    (p : String) (hp : p ∈ files) :
    ((convert_attachments_to_pdf conv files).map Prod.fst = pyUnique files) ∧
    ((convert_attachments_to_pdf conv files).lookup p =
      some (if ["doc", "docx", "pptx", "ppt"].contains (pyLower (lastSegD p '.')) then
        (match conv p libreoffice_timeout (dirname p) with
         | ConvOutcome.exitCode 0 => ConvStatus.converted
         | ConvOutcome.exitCode _ => ConvStatus.failed
         | ConvOutcome.timedOut => ConvStatus.failed
         | ConvOutcome.raised => ConvStatus.failed)
       else if pyLower (lastSegD p '.') = "pdf" then ConvStatus.alreadyPdf
       else ConvStatus.unsupported)) ∧
    (∀ conv2 : Converter,
      conv2 p libreoffice_timeout (dirname p) = conv p libreoffice_timeout (dirname p) →
      (convert_attachments_to_pdf conv2 files).lookup p =
        (convert_attachments_to_pdf conv files).lookup p) := by
  refine ⟨?_, ?_, ?_⟩
  · show ((pyUnique files).map (convertOne conv)).map Prod.fst = pyUnique files
    rw [List.map_map]
    have hfst : Prod.fst ∘ convertOne conv = id :=
      funext (fun q => convertOne_fst conv q)
    rw [hfst, List.map_id]
  · rw [show (convert_attachments_to_pdf conv files).lookup p =
        some ((convertOne conv p).2) from
      lookup_map_convertOne conv p (pyUnique files) (mem_pyUnique hp)]
    rw [convertOne_snd]
  · intro conv2 hcc
    rw [show (convert_attachments_to_pdf conv2 files).lookup p =
        some ((convertOne conv2 p).2) from
      lookup_map_convertOne conv2 p (pyUnique files) (mem_pyUnique hp)]
    rw [show (convert_attachments_to_pdf conv files).lookup p =
        some ((convertOne conv p).2) from
      lookup_map_convertOne conv p (pyUnique files) (mem_pyUnique hp)]
    rw [convertOne_snd, convertOne_snd, hcc]

/-- A converter that fails (exit code 1) exactly on `b.docx`, for the C8
witness: the claim's three-attachment isolation scenario. -/
def convB : Converter := fun p _ _ =>
  if p = "b.docx" then ConvOutcome.exitCode 1 else ConvOutcome.exitCode 0

theorem C8_witness :
    ((convert_attachments_to_pdf convB ["a.docx", "b.docx", "c.docx"]).map Prod.fst =
      pyUnique ["a.docx", "b.docx", "c.docx"]) ∧
    (convert_attachments_to_pdf convB ["a.docx", "b.docx", "c.docx"]).lookup "a.docx" =
      some ConvStatus.converted ∧
    (convert_attachments_to_pdf convB ["a.docx", "b.docx", "c.docx"]).lookup "b.docx" =
      some ConvStatus.failed ∧
    (convert_attachments_to_pdf convB ["a.docx", "b.docx", "c.docx"]).lookup "c.docx" =
      some ConvStatus.converted :=
  ⟨(C8_conversion_isolation convB ["a.docx", "b.docx", "c.docx"] "b.docx"
      (by decide)).1,
    by decide, by decide, by decide⟩

/-! ## C9: fetch failure handling -/

/-- C9 (confirmed).  When the fetch of the popped URL fails (transport
error, timeout, or non-2xx status — all surfaced as `none` by the fetch
oracle, since `raise_for_status` folds bad statuses into the same caught
exception class), the orchestrator just continues: the resulting state is
the old one with only the frontier popped — the URL is *not* added to the
visited set, and the store (filesystem and caches) and the fetch trace are
untouched. -/
theorem C9_fetch_error_skip (web : Web) (b c : String) (s : CrawlState)
    (e : Entry) (rest : List Entry) (hfr : s.frontier = e :: rest)
    (hne : e.url ≠ "") (hns : s.scraped.contains e.url = false)
    (hw : web e.url = none) :
    crawlStep web b c s = { s with frontier := rest } ∧
    (crawlStep web b c s).scraped = s.scraped ∧
    (crawlStep web b c s).scraped.contains e.url = false ∧
    (crawlStep web b c s).store = s.store ∧
    (crawlStep web b c s).fetched = s.fetched := by
  have h : crawlStep web b c s = { s with frontier := rest } := by
    rw [crawlStep_eq_visit web b c s e rest hfr]
    unfold crawlVisit
    have hnc : ¬ s.scraped.contains e.url = true := by
      rw [hns]
      exact Bool.false_ne_true
    rw [if_neg hne, if_neg hnc]
    simp only [hw]
  refine ⟨h, by rw [h], ?_, by rw [h], by rw [h]⟩
  rw [h]
  exact hns

theorem C9_witness :
    crawlStep webNone (netlocOf "http://x.com") "Example"
        (initCrawl "http://x.com" emptyStore) =
      { initCrawl "http://x.com" emptyStore with frontier := [] } :=
  (C9_fetch_error_skip webNone (netlocOf "http://x.com") "Example"
    (initCrawl "http://x.com" emptyStore) (Entry.mk "http://x.com" 0) []
    rfl (by decide) rfl rfl).1

/-! ## C10: the entry point runs no conversion -/

theorem save_extensions_pdfOutputs (url content folder : String)
    (exts : List String) (co : String) (st : Store) :
    (save_extensions url content folder exts co st).pdfOutputs = st.pdfOutputs := by
  unfold save_extensions
  by_cases h : exts.contains (pyLower (lastSegD url '.')) = true
  · rw [if_pos h]
  · rw [if_neg h]

theorem generate_page_report_pdfOutputs (url : String) (doc : HtmlDoc)
    (co : String) (st : Store) :
    (generate_page_report url doc co st).pdfOutputs = st.pdfOutputs := by
  unfold generate_page_report
  by_cases h : netlocOf url = ""
  · rw [if_pos h]
  · rw [if_neg h]

/-- No crawl iteration ever produces a conversion output. -/
theorem crawlStep_pdfOutputs (web : Web) (b c : String) (s : CrawlState) :
    (crawlStep web b c s).store.pdfOutputs = s.store.pdfOutputs := by
  by_cases h : s.frontier = []
  · have hs : crawlStep web b c s = s := by
      unfold crawlStep
      rw [h]
    rw [hs]
  · obtain ⟨e, rest, hfr⟩ := frontier_cons_of_ne_nil h
    rw [crawlStep_eq_visit web b c s e rest hfr]
    unfold crawlVisit
    by_cases h1 : e.url = ""
    · rw [if_pos h1]
    · rw [if_neg h1]
      by_cases h2 : s.scraped.contains e.url = true
      · rw [if_pos h2]
      · rw [if_neg h2]
        cases hw : web e.url with
        | none =>
          simp only [hw]
        | some resp =>
          simp only [hw]
          cases hc : classify e.url resp.contentType with
          | attachment =>
            simp only [hc]
            exact save_extensions_pdfOutputs e.url resp.body attachments_folder
              attachment_extensions c s.store
          | ignored =>
            simp only [hc]
          | htmlPage =>
            simp only [hc]
            exact generate_page_report_pdfOutputs e.url resp.doc c s.store

/-- C10 (confirmed).  `scrap_website` is exactly the crawl with the default
page budget of 1000: it invokes neither `convert_markdown_to_pdf` nor
`convert_attachments_to_pdf`, so — despite logging "All conversions
completed." — after it returns, the conversion-output trace is exactly
what it was before the call: it has produced no conversion outputs. -/
theorem C10_no_conversion_invoked (web : Web) (company_url company_name : String)
    (st : Store) :
    scrap_website web company_url company_name st =
      scrape_entire_website web company_url company_name 1000 st ∧
    (∀ t : CrawlState, scrap_website web company_url company_name st = Except.ok t →
      t.store.pdfOutputs = st.pdfOutputs) := by
  refine ⟨rfl, ?_⟩
  intro t ht
  unfold scrap_website scrape_entire_website at ht
  by_cases h1 : company_url = ""
  · rw [if_pos h1] at ht
    simp at ht
  · rw [if_neg h1] at ht
    by_cases h2 : company_name = ""
    · rw [if_pos h2] at ht
      simp at ht
    · rw [if_neg h2] at ht
      rw [if_neg (by omega : ¬ (1000 : Int) ≤ 0)] at ht
      have htt : crawlLoop web (netlocOf company_url) company_name
          (1000 : Int).toNat (initCrawl company_url st) = t := by
        simpa using ht
      have hr := crawlLoop_reached web (netlocOf company_url) company_name
        (1000 : Int).toNat (initCrawl company_url st)
      have hinv : (crawlLoop web (netlocOf company_url) company_name
          (1000 : Int).toNat (initCrawl company_url st)).store.pdfOutputs =
          st.pdfOutputs := by
        refine Reaches.invariant
          (fun s2 => s2.store.pdfOutputs = st.pdfOutputs) ?_ hr rfl
        intro s2 hne hlt hP
        rw [crawlStep_pdfOutputs]
        exact hP
      rw [← htt, hinv]

theorem C10_witness :
    (scrap_website webNone "http://x.com" "Example" emptyStore =
      scrape_entire_website webNone "http://x.com" "Example" 1000 emptyStore) ∧
    (crawlLoop webNone (netlocOf "http://x.com") "Example" (1000 : Int).toNat
      (initCrawl "http://x.com" emptyStore)).store.pdfOutputs =
      emptyStore.pdfOutputs :=
  ⟨(C10_no_conversion_invoked webNone "http://x.com" "Example" emptyStore).1,
    (C10_no_conversion_invoked webNone "http://x.com" "Example" emptyStore).2
      (crawlLoop webNone (netlocOf "http://x.com") "Example" (1000 : Int).toNat
        (initCrawl "http://x.com" emptyStore)) rfl⟩

end ConvoAI
